import Mathlib

/-!
# Verification of the cx-schema structural validators

A shallow embedding of the module validator (`src/validator.ts`, class
`ModuleValidator`) and the workflow validator (`workflowValidator.ts`, class
`WorkflowValidator`) of the cargoxplorer/cx-schema package, together with
proofs about the recursive component-tree and step-tree walkers.

Parsed YAML documents are modelled by `JsValue`, a JavaScript value tree.
JavaScript truthiness, `typeof v === 'object'`, `Array.isArray`, property
access and the `in` operator are modelled explicitly.  Member access on
`null`/`undefined` throws a `TypeError` in JavaScript; the validators perform
such unguarded accesses in a few places (top-level document access, route and
entity elements, `switch` case items), so those functions return the errors
collected so far together with an optional thrown message, which the
top-level `try`/`catch` of `validateModule`/`validateWorkflow` converts into
an `unexpected_error` violation.

The external collaborators (file system, YAML parser, Ajv) are modelled at
their interfaces: `PipelineInput` is the outcome of reading and parsing the
file, and `SchemaStore` carries the set of registered schema keys together
with an abstract Ajv evaluation function returning raw Ajv error objects.
-/

set_option maxHeartbeats 1000000

namespace CxSchema

/-- A JavaScript value as produced by `js-yaml`'s `yaml.load` (plus
`undefined`, which arises for absent properties and empty documents). -/
inductive JsValue where
  | undefined
  | null
  | bool (b : Bool)
  | num (n : Int)
  | str (s : String)
  | arr (elems : List JsValue)
  | obj (fields : List (String × JsValue))
deriving Repr, Inhabited

namespace JsValue

mutual

/-- Structural equality test for `JsValue` (the nested `List` positions rule
out the derived instance). -/
def beqVal : JsValue → JsValue → Bool
  | .undefined, .undefined => true
  | .null, .null => true
  | .bool a, .bool b => a == b
  | .num a, .num b => a == b
  | .str a, .str b => a == b
  | .arr a, .arr b => beqValList a b
  | .obj a, .obj b => beqValFields a b
  | _, _ => false

def beqValList : List JsValue → List JsValue → Bool
  | [], [] => true
  | x :: xs, y :: ys => beqVal x y && beqValList xs ys
  | _, _ => false

def beqValFields : List (String × JsValue) → List (String × JsValue) → Bool
  | [], [] => true
  | (k₁, v₁) :: xs, (k₂, v₂) :: ys => k₁ == k₂ && beqVal v₁ v₂ && beqValFields xs ys
  | _, _ => false

end

mutual

theorem beqVal_iff_eq : ∀ a b : JsValue, beqVal a b = true ↔ a = b
  | .undefined, .undefined => by simp [beqVal]
  | .null, .null => by simp [beqVal]
  | .bool _, .bool _ => by simp [beqVal]
  | .num _, .num _ => by simp [beqVal]
  | .str _, .str _ => by simp [beqVal]
  | .arr x, .arr y => by simp [beqVal, beqValList_iff_eq x y]
  | .obj x, .obj y => by simp [beqVal, beqValFields_iff_eq x y]
  | .undefined, .null | .undefined, .bool _ | .undefined, .num _ | .undefined, .str _
  | .undefined, .arr _ | .undefined, .obj _
  | .null, .undefined | .null, .bool _ | .null, .num _ | .null, .str _
  | .null, .arr _ | .null, .obj _
  | .bool _, .undefined | .bool _, .null | .bool _, .num _ | .bool _, .str _
  | .bool _, .arr _ | .bool _, .obj _
  | .num _, .undefined | .num _, .null | .num _, .bool _ | .num _, .str _
  | .num _, .arr _ | .num _, .obj _
  | .str _, .undefined | .str _, .null | .str _, .bool _ | .str _, .num _
  | .str _, .arr _ | .str _, .obj _
  | .arr _, .undefined | .arr _, .null | .arr _, .bool _ | .arr _, .num _
  | .arr _, .str _ | .arr _, .obj _
  | .obj _, .undefined | .obj _, .null | .obj _, .bool _ | .obj _, .num _
  | .obj _, .str _ | .obj _, .arr _ => by simp [beqVal]

theorem beqValList_iff_eq : ∀ xs ys : List JsValue, beqValList xs ys = true ↔ xs = ys
  | [], [] => by simp [beqValList]
  | x :: xs, y :: ys => by simp [beqValList, beqVal_iff_eq x y, beqValList_iff_eq xs ys]
  | [], _ :: _ => by simp [beqValList]
  | _ :: _, [] => by simp [beqValList]

theorem beqValFields_iff_eq :
    ∀ xs ys : List (String × JsValue), beqValFields xs ys = true ↔ xs = ys
  | [], [] => by simp [beqValFields]
  | (k₁, v₁) :: xs, (k₂, v₂) :: ys => by
    simp [beqValFields, beqVal_iff_eq v₁ v₂, beqValFields_iff_eq xs ys, Prod.ext_iff, and_assoc]
  | [], _ :: _ => by simp [beqValFields]
  | _ :: _, [] => by simp [beqValFields]

end

instance : DecidableEq JsValue := fun a b =>
  decidable_of_iff (beqVal a b = true) (beqVal_iff_eq a b)

instance : BEq JsValue := ⟨beqVal⟩

end JsValue

/-- JavaScript truthiness: `undefined`, `null`, `false`, `0` and `""` are
falsy, everything else (including `[]` and `{}`) is truthy. -/
def truthy : JsValue → Bool
  | .undefined => false
  | .null => false
  | .bool b => b
  | .num n => n != 0
  | .str s => s != ""
  | .arr _ => true
  | .obj _ => true

/-- `typeof v === 'object'` (true for `null`, arrays and plain objects). -/
def typeofIsObject : JsValue → Bool
  | .null => true
  | .arr _ => true
  | .obj _ => true
  | _ => false

/-- `Array.isArray(v)`. -/
def isArray : JsValue → Bool
  | .arr _ => true
  | _ => false

/-- Property access `v.k` on a non-nullish value: a field of an object,
`undefined` otherwise (the validators only read named, non-numeric keys, so
array/string index access never arises for the keys used).
Access on `null`/`undefined` throws and is modelled separately at the call
sites that can reach it. -/
def getField : JsValue → String → JsValue
  | .obj fields, k =>
    match fields.lookup k with
    | some v => v
    | none => .undefined
  | _, _ => .undefined

/-- The `in` operator, `k in v`, for the non-throwing (object-like) cases. -/
def hasProp : JsValue → String → Bool
  | .obj fields, k => (fields.lookup k).isSome
  | .arr xs, k =>
    match k.toNat? with
    | some i => i < xs.length
    | none => false
  | _, _ => false

/-- The elements of an array value. -/
def arrElems : JsValue → List JsValue
  | .arr xs => xs
  | _ => []

/-- The V8 `TypeError` message produced by reading property `k` of a
nullish value (modelled message text). -/
def readErrorMessage (v : JsValue) (k : String) : String :=
  let who := match v with
    | .null => "null"
    | .undefined => "undefined"
    | _ => ""
  "Cannot read properties of " ++ who ++ " (reading \x27" ++ k ++ "\x27)"

/-! ## Size lemmas for the recursive walkers -/

lemma truthy_ne_undefined {v : JsValue} (h : truthy v = true) : v ≠ .undefined := by
  intro hv; subst hv; simp [truthy] at h

lemma lookup_sizeOf_lt {k : String} {w : JsValue} :
    ∀ {fields : List (String × JsValue)}, fields.lookup k = some w → sizeOf w < sizeOf fields := by
  intro fields
  induction fields with
  | nil => intro h; simp [List.lookup] at h
  | cons kv rest ih =>
    intro h
    obtain ⟨k₀, v₀⟩ := kv
    rw [List.lookup] at h
    by_cases hk : k == k₀
    · simp [hk] at h
      subst h
      simp
      omega
    · simp [hk] at h
      have := ih h
      simp
      omega

lemma sizeOf_getField_lt (v : JsValue) (k : String) (h : getField v k ≠ .undefined) :
    sizeOf (getField v k) < sizeOf v := by
  cases v with
  | obj fields =>
    rw [getField] at h ⊢
    cases hl : fields.lookup k with
    | none => rw [hl] at h; simp at h
    | some w =>
      have := lookup_sizeOf_lt hl
      simp
      omega
  | undefined => simp [getField] at h
  | null => simp [getField] at h
  | bool b => simp [getField] at h
  | num n => simp [getField] at h
  | str s => simp [getField] at h
  | arr xs => simp [getField] at h

lemma sizeOf_arr_getField_lt {v : JsValue} {k : String} {xs : List JsValue}
    (h : getField v k = .arr xs) : sizeOf xs < sizeOf v := by
  have hne : getField v k ≠ .undefined := by rw [h]; intro hx; cases hx
  have hlt := sizeOf_getField_lt v k hne
  rw [h] at hlt
  simp at hlt
  omega


/-! ## Violations, results and the external collaborators -/

/-- A `ValidationError` (`src/types.ts`).  The optional `schemaPath` field is
only set for Ajv-sourced `schema_violation` entries. -/
structure ValidationError where
  type : String
  path : String
  message : String
  schemaPath : Option String := none
deriving Repr, DecidableEq

/-- A `ValidationWarning` (`src/types.ts`). -/
structure ValidationWarning where
  type : String
  path : String
  message : String
deriving Repr, DecidableEq

/-- `ValidationSummary` (`src/types.ts`); `errorsByType` is a JavaScript
object built in insertion order, modelled as an association list. -/
structure ValidationSummary where
  file : String
  timestamp : String
  status : String
  errorCount : Nat
  warningCount : Nat
  errorsByType : List (String × Nat)
deriving Repr, DecidableEq

/-- `ValidationResult` (`src/types.ts`). -/
structure ValidationResult where
  isValid : Bool
  errors : List ValidationError
  warnings : List ValidationWarning
  summary : ValidationSummary
deriving Repr, DecidableEq

/-- An Ajv `ErrorObject`, reduced to the fields the validators read. -/
structure AjvError where
  instancePath : String
  schemaPath : String
  message : Option String
deriving Repr, DecidableEq

/-- The schema store together with the external Ajv evaluator:
`keys` is the set of registered schema keys (`this.schemas`), and
`eval k v` is the error list Ajv produces when validating `v` against the
schema registered under `k` (empty when the document conforms). -/
structure SchemaStore where
  keys : List String
  eval : String → JsValue → List AjvError

/-- The outcome of the file-reading / YAML-parsing front end of
`validateModule` / `validateWorkflow`:
file absent, a throw while reading the file, a throw inside `yaml.load`,
or a parsed document value. -/
inductive PipelineInput where
  | missing
  | readThrow (msg : String)
  | yamlThrow (msg : String)
  | doc (value : JsValue)
deriving Repr, DecidableEq

/-- `error.message || 'Schema validation failed'` (JavaScript `||`:
an absent or empty message selects the fallback). -/
def ajvMessage (m : Option String) : String :=
  match m with
  | some s => if s == "" then "Schema validation failed" else s
  | none => "Schema validation failed"

/-- `ModuleValidator.addAjvErrors`: each Ajv error becomes a
`schema_violation` at `basePath + instancePath`. -/
def addAjvErrors (ajvErrors : List AjvError) (basePath : String) : List ValidationError :=
  ajvErrors.map fun e =>
    { type := "schema_violation", path := basePath ++ e.instancePath,
      message := ajvMessage e.message, schemaPath := some e.schemaPath }

/-- `WorkflowValidator.addAjvErrors`: with an empty base path the leading
`/` of the instance path is dropped, and an empty result path falls back
to `"/"`. -/
def addAjvErrorsWorkflow (ajvErrors : List AjvError) (basePath : String) : List ValidationError :=
  ajvErrors.map fun e =>
    let errorPath := if basePath != "" then basePath ++ e.instancePath else e.instancePath.drop 1
    { type := "schema_violation", path := if errorPath == "" then "/" else errorPath,
      message := ajvMessage e.message, schemaPath := some e.schemaPath }

/-- A `missing_property` error with the message pattern used by the
top-level structure checks of both validators. -/
def missingProperty (p : String) : ValidationError :=
  { type := "missing_property", path := p, message := "Missing required property: " ++ p }

def fileNotFoundError (filePath : String) : ValidationError :=
  { type := "file_not_found", path := filePath, message := "File not found: " ++ filePath }

def yamlSyntaxErrorV (filePath msg : String) : ValidationError :=
  { type := "yaml_syntax_error", path := filePath, message := "YAML syntax error: " ++ msg }

def unexpectedErrorV (filePath msg : String) : ValidationError :=
  { type := "unexpected_error", path := filePath, message := "Unexpected error: " ++ msg }

/-- `checkDeprecatedProperties`: for each entry of the deprecation map, a
`deprecated_property` warning when the object has the field. -/
def checkDeprecatedProperties (deprecations : List (String × String)) (o : JsValue)
    (path : String) : List ValidationWarning :=
  deprecations.filterMap fun kv =>
    if hasProp o kv.1 then
      some { type := "deprecated_property", path := path ++ "." ++ kv.1, message := kv.2 }
    else none

/-- The deprecation map of `ModuleValidator.checkDeprecatedProperties`
(JavaScript object literal, insertion order `key` then `type`). -/
def moduleDeprecations : List (String × String) :=
  [("key", "Use \"name\" instead of \"key\""),
   ("type", "Use \"fieldType\" instead of \"type\" for fields")]

/-- The deprecation map of `WorkflowValidator.checkDeprecatedProperties`
(empty in the source). -/
def workflowDeprecations : List (String × String) := []

/-- `createResult` (identical in `ModuleValidator` and `WorkflowValidator`):
`errorsByType` counts errors per kind in insertion order. -/
def countByType (errors : List ValidationError) : List (String × Nat) :=
  errors.foldl (fun acc e =>
    if acc.any (fun p => p.1 == e.type) then
      acc.map (fun p => if p.1 == e.type then (p.1, p.2 + 1) else p)
    else acc ++ [(e.type, 1)]) []

def createResult (includeWarnings : Bool) (filePath : String) (errors : List ValidationError)
    (warnings : List ValidationWarning) (timestamp : String) : ValidationResult :=
  { isValid := errors.isEmpty,
    errors := errors,
    warnings := if includeWarnings then warnings else [],
    summary :=
      { file := filePath, timestamp := timestamp,
        status := if errors.isEmpty then "PASSED" else "FAILED",
        errorCount := errors.length, warningCount := warnings.length,
        errorsByType := countByType errors } }

/-! ## Template-string rendering (for `components/${componentType}.json`) -/

mutual

/-- JavaScript template-literal stringification `${v}` of a value (numbers
via their decimal form, arrays via `Array.prototype.join(',')`, plain
objects as `[object Object]`). -/
def jsTemplateStr : JsValue → String
  | .undefined => "undefined"
  | .null => "null"
  | .bool b => cond b "true" "false"
  | .num n => toString n
  | .str s => s
  | .obj _ => "[object Object]"
  | .arr xs => jsArrJoinStr xs
termination_by v => sizeOf v
decreasing_by
  all_goals first | (simp; omega) | simp | omega

/-- `Array.prototype.join(',')`: nullish elements render as the empty
string, other elements by their template-string form. -/
def jsArrJoinStr : List JsValue → String
  | [] => ""
  | [x] =>
    match x with
    | .undefined => ""
    | .null => ""
    | v => jsTemplateStr v
  | x :: rest =>
    (match x with
     | .undefined => ""
     | .null => ""
     | v => jsTemplateStr v) ++ "," ++ jsArrJoinStr rest
termination_by xs => sizeOf xs
decreasing_by
  all_goals first | (simp; omega) | simp | omega

end

/-! ## The component-tree walker (`ModuleValidator`, recursive core) -/

mutual

/-- `ModuleValidator.validateNestedComponent`: validate a nested component
node — require a `component` type tag, evaluate against the type-specific
schema when one is registered (permissive fallback otherwise), then recurse
into `children` and into component-tagged values one level inside `props`. -/
def validateNestedComponent (store : SchemaStore) (component : JsValue)
    (componentPath : String) : List ValidationError :=
  if ¬ (truthy component && typeofIsObject component) then []
  else
    let componentType := getField component "component"
    if ¬ truthy componentType then
      [{ type := "missing_property", path := componentPath ++ ".component",
         message := "Component must have a component type" }]
    else
      let schemaKey := "components/" ++ jsTemplateStr componentType ++ ".json"
      let schemaErrors :=
        if store.keys.contains schemaKey then
          addAjvErrors (store.eval schemaKey component) componentPath
        else []
      let childErrors :=
        match hc : getField component "children" with
        | .arr children => validateChildren store children componentPath 0
        | _ => []
      let propErrors :=
        if hp : truthy (getField component "props") then
          validateComponentProps store (getField component "props") (componentPath ++ ".props")
        else []
      schemaErrors ++ childErrors ++ propErrors
termination_by sizeOf component
decreasing_by
  · have hne : getField component "children" ≠ .undefined := by rw [hc]; intro hx; cases hx
    have := sizeOf_getField_lt component "children" hne
    rw [hc] at this
    simp at this
    omega
  · have := sizeOf_getField_lt component "props" (truthy_ne_undefined hp)
    omega

/-- The `component.children.forEach` loop of `validateNestedComponent`
(index `i` threads the array position for the path). -/
def validateChildren (store : SchemaStore) (children : List JsValue)
    (componentPath : String) (i : Nat) : List ValidationError :=
  match children with
  | [] => []
  | child :: rest =>
    validateNestedComponent store child
      (componentPath ++ ".children[" ++ toString i ++ "]") ++
    validateChildren store rest componentPath (i + 1)
termination_by sizeOf children
decreasing_by
  all_goals first | (simp; omega) | simp | omega

/-- `ModuleValidator.validateComponentProps`: recurse into prop values that
are objects carrying their own `component` tag (`Object.entries` also
enumerates array elements, keyed by index). -/
def validateComponentProps (store : SchemaStore) (props : JsValue)
    (propsPath : String) : List ValidationError :=
  if ¬ (truthy props && typeofIsObject props) then []
  else
    match props with
    | .obj fields => validatePropsFields store fields propsPath
    | .arr xs => validatePropsElems store xs propsPath 0
    | _ => []
termination_by sizeOf props
decreasing_by
  all_goals first | (simp; omega) | simp | omega

/-- The `Object.entries(props)` loop of `validateComponentProps` over an
object's fields. -/
def validatePropsFields (store : SchemaStore) (fields : List (String × JsValue))
    (propsPath : String) : List ValidationError :=
  match fields with
  | [] => []
  | (key, value) :: rest =>
    (if truthy value && typeofIsObject value && truthy (getField value "component") then
      validateNestedComponent store value (propsPath ++ "." ++ key)
    else []) ++ validatePropsFields store rest propsPath
termination_by sizeOf fields
decreasing_by
  all_goals first | (simp; omega) | simp | omega

/-- The `Object.entries(props)` loop of `validateComponentProps` over an
array's elements (keys are the decimal indices). -/
def validatePropsElems (store : SchemaStore) (xs : List JsValue)
    (propsPath : String) (i : Nat) : List ValidationError :=
  match xs with
  | [] => []
  | value :: rest =>
    (if truthy value && typeofIsObject value && truthy (getField value "component") then
      validateNestedComponent store value (propsPath ++ "." ++ toString i)
    else []) ++ validatePropsElems store rest propsPath (i + 1)
termination_by sizeOf xs
decreasing_by
  all_goals first | (simp; omega) | simp | omega

end

/-! ## Module validator: top-level shape -/

/-- `ModuleValidator.validateComponent`: a top-level component must be an
object with a `name`; a present `layout` is handed to the component-tree
walker; the deprecation check contributes warnings. -/
def validateComponent (store : SchemaStore) (component : JsValue)
    (componentPath : String) : List ValidationError × List ValidationWarning :=
  if ¬ (truthy component && typeofIsObject component) then
    ([{ type := "invalid_component", path := componentPath,
        message := "Component must be an object" }], [])
  else
    let nameErrors :=
      if ¬ truthy (getField component "name") then
        [{ type := "missing_property", path := componentPath ++ ".name",
           message := "Component must have a name property" }]
      else []
    let layoutErrors :=
      if truthy (getField component "layout") then
        validateNestedComponent store (getField component "layout") (componentPath ++ ".layout")
      else []
    (nameErrors ++ layoutErrors,
     checkDeprecatedProperties moduleDeprecations component componentPath)

/-- `ModuleValidator.validateComponents`: the indexed `forEach` loop. -/
def validateComponents (store : SchemaStore) (components : List JsValue)
    (i : Nat) : List ValidationError × List ValidationWarning :=
  match components with
  | [] => ([], [])
  | c :: rest =>
    let r := validateComponent store c ("components[" ++ toString i ++ "]")
    let r2 := validateComponents store rest (i + 1)
    (r.1 ++ r2.1, r.2 ++ r2.2)

/-- `ModuleValidator.validateModuleStructure`.  An absent `module` block
short-circuits the remaining structure checks (early `return`); the
`components` / `name` / `appModuleId` / `displayName` checks are independent.
Property access on a nullish document throws, reported in the second
component. -/
def validateModuleStructure (moduleData : JsValue) :
    List ValidationError × Option String :=
  if moduleData = .null ∨ moduleData = .undefined then
    ([], some (readErrorMessage moduleData "module"))
  else
    if ¬ truthy (getField moduleData "module") then
      ([missingProperty "module"], none)
    else
      let m := getField moduleData "module"
      ((if ¬ truthy (getField moduleData "components") then
          [missingProperty "components"] else []) ++
       (if ¬ truthy (getField m "name") then [missingProperty "module.name"] else []) ++
       (if ¬ truthy (getField m "appModuleId") then
          [missingProperty "module.appModuleId"] else []) ++
       (if ¬ truthy (getField m "displayName") then
          [missingProperty "module.displayName"] else []), none)

/-- `ModuleValidator.validateRoutes`: each route needs `path` and
`component`; the property access `route.path` throws on a nullish element. -/
def validateRoutes (routes : List JsValue) (i : Nat) :
    List ValidationError × Option String :=
  match routes with
  | [] => ([], none)
  | route :: rest =>
    if route = .null ∨ route = .undefined then
      ([], some (readErrorMessage route "path"))
    else
      let errs :=
        (if ¬ truthy (getField route "path") then
          [{ type := "missing_property", path := "routes[" ++ toString i ++ "].path",
             message := "Route must have a path property" }] else []) ++
        (if ¬ truthy (getField route "component") then
          [{ type := "missing_property", path := "routes[" ++ toString i ++ "].component",
             message := "Route must have a component property" }] else [])
      let r := validateRoutes rest (i + 1)
      (errs ++ r.1, r.2)

/-- `ModuleValidator.validateEntities`: each entity needs `name`; the
property access `entity.name` throws on a nullish element. -/
def validateEntities (entities : List JsValue) (i : Nat) :
    List ValidationError × Option String :=
  match entities with
  | [] => ([], none)
  | entity :: rest =>
    if entity = .null ∨ entity = .undefined then
      ([], some (readErrorMessage entity "name"))
    else
      let errs :=
        if ¬ truthy (getField entity "name") then
          [{ type := "missing_property", path := "entities[" ++ toString i ++ "].name",
             message := "Entity must have a name property" }] else []
      let r := validateEntities rest (i + 1)
      (errs ++ r.1, r.2)

/-- `ModuleValidator.validateModule`: the full pipeline over the outcome of
reading and parsing the file.  A validation-time throw is converted by the
top-level `catch` into an `unexpected_error` appended to the errors already
collected; a `yaml.load` throw is caught by the inner handler as a
`yaml_syntax_error`. -/
def validateModule (store : SchemaStore) (includeWarnings : Bool) (filePath : String)
    (input : PipelineInput) (timestamp : String) : ValidationResult :=
  match input with
  | .missing =>
    createResult includeWarnings filePath [fileNotFoundError filePath] [] timestamp
  | .readThrow msg =>
    createResult includeWarnings filePath [unexpectedErrorV filePath msg] [] timestamp
  | .yamlThrow msg =>
    createResult includeWarnings filePath [yamlSyntaxErrorV filePath msg] [] timestamp
  | .doc moduleData =>
    match validateModuleStructure moduleData with
    | (structErrors, some msg) =>
      createResult includeWarnings filePath
        (structErrors ++ [unexpectedErrorV filePath msg]) [] timestamp
    | (structErrors, none) =>
      let comps :=
        if truthy (getField moduleData "components") &&
            isArray (getField moduleData "components") then
          validateComponents store (arrElems (getField moduleData "components")) 0
        else ([], [])
      match (if truthy (getField moduleData "routes") &&
            isArray (getField moduleData "routes") then
          validateRoutes (arrElems (getField moduleData "routes")) 0
        else ([], none)) with
      | (routeErrors, some msg) =>
        createResult includeWarnings filePath
          (structErrors ++ comps.1 ++ routeErrors ++ [unexpectedErrorV filePath msg])
          comps.2 timestamp
      | (routeErrors, none) =>
        match (if truthy (getField moduleData "entities") &&
              isArray (getField moduleData "entities") then
            validateEntities (arrElems (getField moduleData "entities")) 0
          else ([], none)) with
        | (entityErrors, some msg) =>
          createResult includeWarnings filePath
            (structErrors ++ comps.1 ++ routeErrors ++ entityErrors ++
              [unexpectedErrorV filePath msg])
            comps.2 timestamp
        | (entityErrors, none) =>
          createResult includeWarnings filePath
            (structErrors ++ comps.1 ++ routeErrors ++ entityErrors)
            comps.2 timestamp

/-! ## The step-tree walker (`WorkflowValidator`, recursive core) -/

mutual

/-- `WorkflowValidator.validateStep`: a step must be an object with a
truthy `task` tag; control-flow tasks recurse into their nested step
collections. -/
def validateStep (step : JsValue) (stepPath : String) :
    List ValidationError × Option String :=
  if ¬ (truthy step && typeofIsObject step) then
    ([{ type := "schema_violation", path := stepPath,
        message := "Step must be an object" }], none)
  else if ¬ truthy (getField step "task") then
    ([{ type := "missing_property", path := stepPath ++ ".task",
        message := "Step must have a task property" }], none)
  else
    validateNestedSteps step stepPath
termination_by (sizeOf step, 1)

/-- `WorkflowValidator.validateNestedSteps`: dispatch on the task kind.
The source tests `foreach` / `switch` / `while` with three independent
`if`s; a string equals at most one of the three literals, so the chained
form is equivalent.  Reading `caseItem.steps` throws on a nullish case
item. -/
def validateNestedSteps (step : JsValue) (stepPath : String) :
    List ValidationError × Option String :=
  let taskType := getField step "task"
  if taskType = .str "foreach" then
    match hs : getField step "steps" with
    | .arr nested => validateStepList nested (stepPath ++ ".steps") 0
    | _ => ([], none)
  else if taskType = .str "switch" then
    let casesResult :=
      match hc : getField step "cases" with
      | .arr cases => validateSwitchCases cases stepPath 0
      | _ => ([], none)
    match casesResult with
    | (es, some m) => (es, some m)
    | (es, none) =>
      let defaultResult :=
        if hd : truthy (getField step "default") then
          match hds : getField (getField step "default") "steps" with
          | .arr ds => validateStepList ds (stepPath ++ ".default.steps") 0
          | _ => ([], none)
        else ([], none)
      (es ++ defaultResult.1, defaultResult.2)
  else if taskType = .str "while" then
    match hs : getField step "steps" with
    | .arr nested => validateStepList nested (stepPath ++ ".steps") 0
    | _ => ([], none)
  else ([], none)
termination_by (sizeOf step, 0)
decreasing_by
  · have hne : getField step "steps" ≠ .undefined := by rw [hs]; intro hx; cases hx
    have := sizeOf_getField_lt step "steps" hne
    rw [hs] at this
    simp at this ⊢
    omega
  · have hne : getField step "cases" ≠ .undefined := by rw [hc]; intro hx; cases hx
    have := sizeOf_getField_lt step "cases" hne
    rw [hc] at this
    simp at this ⊢
    omega
  · have h1 := sizeOf_getField_lt step "default" (truthy_ne_undefined hd)
    have hne : getField (getField step "default") "steps" ≠ .undefined := by
      rw [hds]; intro hx; cases hx
    have h2 := sizeOf_getField_lt (getField step "default") "steps" hne
    rw [hds] at h2
    simp at h2 ⊢
    omega
  · have hne : getField step "steps" ≠ .undefined := by rw [hs]; intro hx; cases hx
    have := sizeOf_getField_lt step "steps" hne
    rw [hs] at this
    simp at this ⊢
    omega

/-- The nested `steps.forEach` loops of `validateNestedSteps` and
`validateActivity` (paths are `pathPrefix[i]`). -/
def validateStepList (steps : List JsValue) (pathPrefix : String) (i : Nat) :
    List ValidationError × Option String :=
  match steps with
  | [] => ([], none)
  | s :: rest =>
    match validateStep s (pathPrefix ++ "[" ++ toString i ++ "]") with
    | (es, some m) => (es, some m)
    | (es, none) =>
      let r := validateStepList rest pathPrefix (i + 1)
      (es ++ r.1, r.2)
termination_by (sizeOf steps, 1)
decreasing_by
  · simp
    omega
  · simp
    omega

/-- The `cases.forEach` loop of the `switch` branch; reading
`caseItem.steps` throws on a nullish case item. -/
def validateSwitchCases (cases : List JsValue) (stepPath : String) (c : Nat) :
    List ValidationError × Option String :=
  match cases with
  | [] => ([], none)
  | caseItem :: rest =>
    if caseItem = .null ∨ caseItem = .undefined then
      ([], some (readErrorMessage caseItem "steps"))
    else
      let inner :=
        match hcs : getField caseItem "steps" with
        | .arr ss =>
          validateStepList ss (stepPath ++ ".cases[" ++ toString c ++ "].steps") 0
        | _ => ([], none)
      match inner with
      | (es, some m) => (es, some m)
      | (es, none) =>
        let r := validateSwitchCases rest stepPath (c + 1)
        (es ++ r.1, r.2)

termination_by (sizeOf cases, 1)
decreasing_by
  all_goals first
  | (have hkey := sizeOf_arr_getField_lt hcs
     simp [Prod.lex_def] at hkey ⊢
     omega)
  | (simp [Prod.lex_def]; omega)
  | simp [Prod.lex_def]

end

/-! ## Workflow validator: top-level shape -/

/-- `WorkflowValidator.validateWorkflowStructure`.  An absent `workflow`
block short-circuits the remaining checks (early `return`, before the
deprecation check); property access on a nullish document throws. -/
def validateWorkflowStructure (workflowData : JsValue) :
    List ValidationError × List ValidationWarning × Option String :=
  if workflowData = .null ∨ workflowData = .undefined then
    ([], [], some (readErrorMessage workflowData "workflow"))
  else
    if ¬ truthy (getField workflowData "workflow") then
      ([missingProperty "workflow"], [], none)
    else
      let w := getField workflowData "workflow"
      ((if ¬ truthy (getField workflowData "activities") then
          [missingProperty "activities"] else []) ++
       (if ¬ truthy (getField w "workflowId") then
          [missingProperty "workflow.workflowId"] else []) ++
       (if ¬ truthy (getField w "name") then [missingProperty "workflow.name"] else []),
       checkDeprecatedProperties workflowDeprecations w "workflow", none)

/-- `WorkflowValidator.validateActivity`: an activity must be an object
with a `name` and a `steps` array; absent/invalid `steps` stops this
element before any step recursion. -/
def validateActivity (activity : JsValue) (activityPath : String) :
    List ValidationError × Option String :=
  if ¬ (truthy activity && typeofIsObject activity) then
    ([{ type := "invalid_activity", path := activityPath,
        message := "Activity must be an object" }], none)
  else
    let nameErrors :=
      if ¬ truthy (getField activity "name") then
        [{ type := "missing_property", path := activityPath ++ ".name",
           message := "Activity must have a name property" }]
      else []
    if ¬ (truthy (getField activity "steps") && isArray (getField activity "steps")) then
      (nameErrors ++
       [{ type := "missing_property", path := activityPath ++ ".steps",
          message := "Activity must have a steps array" }], none)
    else
      let r := validateStepList (arrElems (getField activity "steps"))
        (activityPath ++ ".steps") 0
      (nameErrors ++ r.1, r.2)

/-- `WorkflowValidator.validateActivities`: the indexed `forEach` loop. -/
def validateActivities (activities : List JsValue) (basePath : String) (i : Nat) :
    List ValidationError × Option String :=
  match activities with
  | [] => ([], none)
  | activity :: rest =>
    match validateActivity activity (basePath ++ "[" ++ toString i ++ "]") with
    | (es, some m) => (es, some m)
    | (es, none) =>
      let r := validateActivities rest basePath (i + 1)
      (es ++ r.1, r.2)

/-- `WorkflowValidator.validateWorkflow`: the full pipeline.  After the
structure check the whole document is evaluated against the registered
root `workflow.json` schema (when present), then activities are walked.
A validation-time throw is converted by the top-level `catch` into an
`unexpected_error` appended to the errors already collected. -/
def validateWorkflow (store : SchemaStore) (includeWarnings : Bool) (filePath : String)
    (input : PipelineInput) (timestamp : String) : ValidationResult :=
  match input with
  | .missing =>
    createResult includeWarnings filePath [fileNotFoundError filePath] [] timestamp
  | .readThrow msg =>
    createResult includeWarnings filePath [unexpectedErrorV filePath msg] [] timestamp
  | .yamlThrow msg =>
    createResult includeWarnings filePath [yamlSyntaxErrorV filePath msg] [] timestamp
  | .doc workflowData =>
    match validateWorkflowStructure workflowData with
    | (structErrors, structWarnings, some msg) =>
      createResult includeWarnings filePath
        (structErrors ++ [unexpectedErrorV filePath msg]) structWarnings timestamp
    | (structErrors, structWarnings, none) =>
      let schemaErrors :=
        if store.keys.contains "workflow.json" then
          addAjvErrorsWorkflow (store.eval "workflow.json" workflowData) ""
        else []
      match (if truthy (getField workflowData "activities") &&
            isArray (getField workflowData "activities") then
          validateActivities (arrElems (getField workflowData "activities")) "activities" 0
        else ([], none)) with
      | (activityErrors, some msg) =>
        createResult includeWarnings filePath
          (structErrors ++ schemaErrors ++ activityErrors ++ [unexpectedErrorV filePath msg])
          structWarnings timestamp
      | (activityErrors, none) =>
        createResult includeWarnings filePath
          (structErrors ++ schemaErrors ++ activityErrors)
          structWarnings timestamp

lemma addAjvErrors_path (l : List AjvError) (b : String) :
    ∀ e ∈ addAjvErrors l b, ∃ t, e.path = b ++ t := by
  intro e he
  simp [addAjvErrors] at he
  obtain ⟨a, _, rfl⟩ := he
  exact ⟨a.instancePath, rfl⟩

mutual

theorem validateNestedComponent_prefix (store : SchemaStore) (c : JsValue) (p : String) :
    ∀ e ∈ validateNestedComponent store c p, ∃ t, e.path = p ++ t := by
  intro e he
  rw [validateNestedComponent] at he
  dsimp only at he
  split at he
  · exfalso; simp at he
  · by_cases h2 : truthy (getField c "component") = true
    · rw [if_neg (by simp [h2])] at he
      simp only [List.mem_append] at he
      rcases he with (he | he) | he
      · split at he
        · exact addAjvErrors_path _ _ e he
        · exfalso; simp at he
      · split at he
        · rename_i children hcc
          exact validateChildren_prefix store children p 0 e he
        · exfalso; simp at he
      · split at he
        · rename_i hp
          obtain ⟨t, ht⟩ := validateComponentProps_prefix store
            (getField c "props") (p ++ ".props") e he
          exact ⟨".props" ++ t, by rw [ht]; simp [String.append_assoc]⟩
        · exfalso; simp at he
    · rw [if_pos (by simp [h2])] at he
      simp only [List.mem_singleton] at he
      subst he
      exact ⟨".component", rfl⟩
termination_by (sizeOf c, 1)
decreasing_by
  all_goals simp only [Prod.lex_def]
  all_goals first
  | (rename_i hload
     have := sizeOf_arr_getField_lt hload
     omega)
  | (rename_i hload
     have := sizeOf_getField_lt _ _ (truthy_ne_undefined hload)
     omega)

theorem validateChildren_prefix (store : SchemaStore) (l : List JsValue) (p : String) (i : Nat) :
    ∀ e ∈ validateChildren store l p i, ∃ t, e.path = p ++ t := by
  match l with
  | [] =>
    rw [validateChildren]
    simp
  | child :: rest =>
    rw [validateChildren]
    intro e he
    simp only [List.mem_append] at he
    rcases he with he | he
    · obtain ⟨t, ht⟩ := validateNestedComponent_prefix store child
        (p ++ ".children[" ++ toString i ++ "]") e he
      exact ⟨".children[" ++ toString i ++ "]" ++ t, by rw [ht]; simp [String.append_assoc]⟩
    · exact validateChildren_prefix store rest p (i + 1) e he
termination_by (sizeOf l, 0)
decreasing_by
  all_goals simp only [Prod.lex_def]
  all_goals first | (simp; omega) | simp | omega

theorem validateComponentProps_prefix (store : SchemaStore) (props : JsValue) (p : String) :
    ∀ e ∈ validateComponentProps store props p, ∃ t, e.path = p ++ t := by
  match props with
  | .obj fields =>
    intro e he
    rw [validateComponentProps] at he
    simp only [truthy, typeofIsObject] at he
    simp at he
    exact validatePropsFields_prefix store fields p e he
  | .arr xs =>
    intro e he
    rw [validateComponentProps] at he
    simp only [truthy, typeofIsObject] at he
    simp at he
    exact validatePropsElems_prefix store xs p 0 e he
  | .undefined =>
    intro e he
    rw [validateComponentProps] at he
    simp [truthy, typeofIsObject] at he
    all_goals (intro _ h; cases h)
  | .null =>
    intro e he
    rw [validateComponentProps] at he
    simp [truthy, typeofIsObject] at he
    all_goals (intro _ h; cases h)
  | .bool b =>
    intro e he
    rw [validateComponentProps] at he
    simp [truthy, typeofIsObject] at he
    all_goals (intro _ h; cases h)
  | .num n =>
    intro e he
    rw [validateComponentProps] at he
    simp [truthy, typeofIsObject] at he
    all_goals (intro _ h; cases h)
  | .str st =>
    intro e he
    rw [validateComponentProps] at he
    simp [truthy, typeofIsObject] at he
    all_goals (intro _ h; cases h)
termination_by (sizeOf props, 1)
decreasing_by
  all_goals simp only [Prod.lex_def]
  all_goals first | (simp; omega) | simp | omega

theorem validatePropsFields_prefix (store : SchemaStore) (fields : List (String × JsValue))
    (p : String) : ∀ e ∈ validatePropsFields store fields p, ∃ t, e.path = p ++ t := by
  match fields with
  | [] =>
    rw [validatePropsFields]
    simp
  | (key, value) :: rest =>
    rw [validatePropsFields]
    intro e he
    simp only [List.mem_append] at he
    rcases he with he | he
    · split at he
      · obtain ⟨t, ht⟩ := validateNestedComponent_prefix store value (p ++ "." ++ key) e he
        exact ⟨"." ++ key ++ t, by rw [ht]; simp [String.append_assoc]⟩
      · exfalso; simp at he
    · exact validatePropsFields_prefix store rest p e he
termination_by (sizeOf fields, 0)
decreasing_by
  all_goals simp only [Prod.lex_def]
  all_goals first | (simp; omega) | simp | omega

theorem validatePropsElems_prefix (store : SchemaStore) (xs : List JsValue)
    (p : String) (i : Nat) : ∀ e ∈ validatePropsElems store xs p i, ∃ t, e.path = p ++ t := by
  match xs with
  | [] =>
    rw [validatePropsElems]
    simp
  | value :: rest =>
    rw [validatePropsElems]
    intro e he
    simp only [List.mem_append] at he
    rcases he with he | he
    · split at he
      · obtain ⟨t, ht⟩ := validateNestedComponent_prefix store value (p ++ "." ++ toString i) e he
        exact ⟨"." ++ toString i ++ t, by rw [ht]; simp [String.append_assoc]⟩
      · exfalso; simp at he
    · exact validatePropsElems_prefix store rest p (i + 1) e he
termination_by (sizeOf xs, 0)
decreasing_by
  all_goals simp only [Prod.lex_def]
  all_goals first | (simp; omega) | simp | omega

end

lemma append_empty_eq (p : String) : p = p ++ "" := by
  cases p with
  | mk l =>
    rw [String.ext_iff]
    simp [String.data_append]

mutual

theorem validateStep_prefix (s : JsValue) (p : String) :
    ∀ e ∈ (validateStep s p).1, ∃ t, e.path = p ++ t := by
  intro e he
  rw [validateStep] at he
  split at he
  · simp at he
    subst he
    exact ⟨"", append_empty_eq p⟩
  · split at he
    · simp at he
      subst he
      exact ⟨".task", rfl⟩
    · exact validateNestedSteps_prefix s p e he
termination_by (sizeOf s, 1)

theorem validateNestedSteps_prefix (s : JsValue) (p : String) :
    ∀ e ∈ (validateNestedSteps s p).1, ∃ t, e.path = p ++ t := by
  intro e he
  rw [validateNestedSteps] at he
  dsimp only at he
  split at he
  · -- foreach
    split at he
    · rename_i nested hs
      obtain ⟨t, ht⟩ := validateStepList_prefix nested (p ++ ".steps") 0 e he
      exact ⟨".steps" ++ t, by rw [ht]; simp [String.append_assoc]⟩
    · simp at he
  · split at he
    · -- switch
      split at he
      · -- cases result threw
        rename_i es m hmatch
        split at hmatch
        · rename_i cases hc
          have hmem : e ∈ (validateSwitchCases cases p 0).1 := by
            rw [hmatch]
            exact he
          exact validateSwitchCases_prefix cases p 0 e hmem
        · exact absurd hmatch (by simp)
      · -- cases result clean, default appended
        rename_i es hmatch
        simp only [List.mem_append] at he
        rcases he with he | he
        · split at hmatch
          · rename_i cases hc
            have hmem : e ∈ (validateSwitchCases cases p 0).1 := by
              rw [hmatch]
              exact he
            exact validateSwitchCases_prefix cases p 0 e hmem
          · rw [Prod.mk.injEq] at hmatch
            rw [← hmatch.1] at he
            simp at he
        · split at he
          · split at he
            · rename_i hd ds hds
              obtain ⟨t, ht⟩ := validateStepList_prefix ds (p ++ ".default.steps") 0 e he
              exact ⟨".default.steps" ++ t, by rw [ht]; simp [String.append_assoc]⟩
            · simp at he
          · simp at he
    · split at he
      · -- while
        split at he
        · rename_i nested hs
          obtain ⟨t, ht⟩ := validateStepList_prefix nested (p ++ ".steps") 0 e he
          exact ⟨".steps" ++ t, by rw [ht]; simp [String.append_assoc]⟩
        · simp at he
      · simp at he
termination_by (sizeOf s, 0)
decreasing_by
  all_goals simp only [Prod.lex_def]
  all_goals first
  | (rename_i hload
     have := sizeOf_arr_getField_lt hload
     omega)
  | (rename_i hload
     have hx := sizeOf_arr_getField_lt hload
     have hy := sizeOf_getField_lt s "default" (truthy_ne_undefined (by assumption))
     omega)

theorem validateStepList_prefix (ss : List JsValue) (pref : String) (i : Nat) :
    ∀ e ∈ (validateStepList ss pref i).1, ∃ t, e.path = pref ++ t := by
  match ss with
  | [] =>
    rw [validateStepList]
    simp
  | s :: rest =>
    intro e he
    rw [validateStepList] at he
    dsimp only at he
    split at he
    · rename_i es m hmatch
      have : e ∈ (validateStep s (pref ++ "[" ++ toString i ++ "]")).1 := by
        rw [hmatch]
        exact he
      obtain ⟨t, ht⟩ := validateStep_prefix s (pref ++ "[" ++ toString i ++ "]") e this
      exact ⟨"[" ++ toString i ++ "]" ++ t, by rw [ht]; simp [String.append_assoc]⟩
    · rename_i es hmatch
      simp only [List.mem_append] at he
      rcases he with he | he
      · have : e ∈ (validateStep s (pref ++ "[" ++ toString i ++ "]")).1 := by
          rw [hmatch]
          exact he
        obtain ⟨t, ht⟩ := validateStep_prefix s (pref ++ "[" ++ toString i ++ "]") e this
        exact ⟨"[" ++ toString i ++ "]" ++ t, by rw [ht]; simp [String.append_assoc]⟩
      · exact validateStepList_prefix rest pref (i + 1) e he
termination_by (sizeOf ss, 0)
decreasing_by
  all_goals simp only [Prod.lex_def]
  all_goals first | (simp; omega) | simp | omega

theorem validateSwitchCases_prefix (cs : List JsValue) (p : String) (c : Nat) :
    ∀ e ∈ (validateSwitchCases cs p c).1, ∃ t, e.path = p ++ t := by
  match cs with
  | [] =>
    rw [validateSwitchCases]
    simp
  | caseItem :: rest =>
    intro e he
    rw [validateSwitchCases] at he
    dsimp only at he
    split at he
    · simp at he
    · split at he
      · rename_i es m hmatch
        split at hmatch
        · rename_i ss hcs
          have hmem : e ∈ (validateStepList ss (p ++ ".cases[" ++ toString c ++ "].steps") 0).1 := by
            rw [hmatch]
            exact he
          obtain ⟨t, ht⟩ := validateStepList_prefix ss
            (p ++ ".cases[" ++ toString c ++ "].steps") 0 e hmem
          exact ⟨".cases[" ++ toString c ++ "].steps" ++ t, by rw [ht]; simp [String.append_assoc]⟩
        · exact absurd hmatch (by simp)
      · rename_i es hmatch
        simp only [List.mem_append] at he
        rcases he with he | he
        · split at hmatch
          · rename_i ss hcs
            have hmem : e ∈ (validateStepList ss (p ++ ".cases[" ++ toString c ++ "].steps") 0).1 := by
              rw [hmatch]
              exact he
            obtain ⟨t, ht⟩ := validateStepList_prefix ss
              (p ++ ".cases[" ++ toString c ++ "].steps") 0 e hmem
            exact ⟨".cases[" ++ toString c ++ "].steps" ++ t, by rw [ht]; simp [String.append_assoc]⟩
          · rw [Prod.mk.injEq] at hmatch
            rw [← hmatch.1] at he
            simp at he
        · exact validateSwitchCases_prefix rest p (c + 1) e he
termination_by (sizeOf cs, 0)
decreasing_by
  all_goals simp only [Prod.lex_def]
  all_goals first
  | (rename_i hload
     have := sizeOf_arr_getField_lt hload
     simp
     omega)
  | (rename_i hload
     have := sizeOf_arr_getField_lt hload
     omega)
  | (simp; omega)
  | simp
  | omega

end

lemma validateModule_shape (store : SchemaStore) (fp : String) (input : PipelineInput) :
    ∃ E W, ∀ (iw : Bool) (ts : String),
      validateModule store iw fp input ts = createResult iw fp E W ts := by
  cases input with
  | missing => exact ⟨_, _, fun iw ts => rfl⟩
  | readThrow m => exact ⟨_, _, fun iw ts => rfl⟩
  | yamlThrow m => exact ⟨_, _, fun iw ts => rfl⟩
  | doc d =>
    rcases hs : validateModuleStructure d with ⟨es, exc⟩
    cases exc with
    | some m =>
      exact ⟨_, _, fun iw ts => by rw [validateModule, hs]⟩
    | none =>
      rcases hr : (if truthy (getField d "routes") && isArray (getField d "routes") then
          validateRoutes (arrElems (getField d "routes")) 0
        else ([], none)) with ⟨re, rexc⟩
      cases rexc with
      | some m =>
        exact ⟨_, _, fun iw ts => by rw [validateModule, hs, hr]⟩
      | none =>
        rcases hn : (if truthy (getField d "entities") && isArray (getField d "entities") then
            validateEntities (arrElems (getField d "entities")) 0
          else ([], none)) with ⟨ne, nexc⟩
        cases nexc with
        | some m =>
          exact ⟨_, _, fun iw ts => by rw [validateModule, hs, hr, hn]⟩
        | none =>
          exact ⟨_, _, fun iw ts => by rw [validateModule, hs, hr, hn]⟩

lemma validateWorkflow_shape (store : SchemaStore) (fp : String) (input : PipelineInput) :
    ∃ E W, ∀ (iw : Bool) (ts : String),
      validateWorkflow store iw fp input ts = createResult iw fp E W ts := by
  cases input with
  | missing => exact ⟨_, _, fun iw ts => rfl⟩
  | readThrow m => exact ⟨_, _, fun iw ts => rfl⟩
  | yamlThrow m => exact ⟨_, _, fun iw ts => rfl⟩
  | doc d =>
    rcases hs : validateWorkflowStructure d with ⟨es, ws, exc⟩
    cases exc with
    | some m =>
      exact ⟨_, _, fun iw ts => by rw [validateWorkflow, hs]⟩
    | none =>
      rcases ha : (if truthy (getField d "activities") && isArray (getField d "activities") then
          validateActivities (arrElems (getField d "activities")) "activities" 0
        else ([], none)) with ⟨ae, aexc⟩
      cases aexc with
      | some m =>
        exact ⟨_, _, fun iw ts => by rw [validateWorkflow, hs, ha]⟩
      | none =>
        exact ⟨_, _, fun iw ts => by rw [validateWorkflow, hs, ha]⟩

lemma checkDeprecated_prefix (deps : List (String × String)) (o : JsValue) (path : String) :
    ∀ w ∈ checkDeprecatedProperties deps o path, ∃ t, w.path = path ++ t := by
  intro w hw
  simp [checkDeprecatedProperties] at hw
  obtain ⟨a, b, hab, hcond, rfl⟩ := hw
  exact ⟨"." ++ a, by simp [String.append_assoc]⟩

lemma validateComponent_err_prefix (store : SchemaStore) (c : JsValue) (cp : String) :
    ∀ e ∈ (validateComponent store c cp).1, ∃ t, e.path = cp ++ t := by
  intro e he
  rw [validateComponent] at he
  split at he
  · simp at he
    subst he
    exact ⟨"", append_empty_eq cp⟩
  · dsimp only at he
    simp only [List.mem_append] at he
    rcases he with he | he
    · split at he
      · simp at he
        subst he
        exact ⟨".name", rfl⟩
      · simp at he
    · split at he
      · obtain ⟨t, ht⟩ := validateNestedComponent_prefix store _ (cp ++ ".layout") e he
        exact ⟨".layout" ++ t, by rw [ht]; simp [String.append_assoc]⟩
      · simp at he

lemma validateComponent_warn_prefix (store : SchemaStore) (c : JsValue) (cp : String) :
    ∀ w ∈ (validateComponent store c cp).2, ∃ t, w.path = cp ++ t := by
  intro w hw
  rw [validateComponent] at hw
  split at hw
  · simp at hw
  · dsimp only at hw
    exact checkDeprecated_prefix moduleDeprecations c cp w hw

lemma validateComponents_err_prefix (store : SchemaStore) :
    ∀ (xs : List JsValue) (i : Nat), ∀ e ∈ (validateComponents store xs i).1,
      ∃ t, e.path = "components[" ++ t := by
  intro xs
  induction xs with
  | nil => intro i e he; simp [validateComponents] at he
  | cons c rest ih =>
    intro i e he
    rw [validateComponents] at he
    dsimp only at he
    simp only [List.mem_append] at he
    rcases he with he | he
    · obtain ⟨t, ht⟩ := validateComponent_err_prefix store c
        ("components[" ++ toString i ++ "]") e he
      exact ⟨toString i ++ "]" ++ t, by rw [ht]; simp [String.append_assoc]⟩
    · exact ih (i + 1) e he

lemma validateComponents_warn_prefix (store : SchemaStore) :
    ∀ (xs : List JsValue) (i : Nat), ∀ w ∈ (validateComponents store xs i).2,
      ∃ t, w.path = "components[" ++ t := by
  intro xs
  induction xs with
  | nil => intro i w hw; simp [validateComponents] at hw
  | cons c rest ih =>
    intro i w hw
    rw [validateComponents] at hw
    dsimp only at hw
    simp only [List.mem_append] at hw
    rcases hw with hw | hw
    · obtain ⟨t, ht⟩ := validateComponent_warn_prefix store c
        ("components[" ++ toString i ++ "]") w hw
      exact ⟨toString i ++ "]" ++ t, by rw [ht]; simp [String.append_assoc]⟩
    · exact ih (i + 1) w hw

lemma validateRoutes_prefix :
    ∀ (xs : List JsValue) (i : Nat), ∀ e ∈ (validateRoutes xs i).1,
      ∃ t, e.path = "routes[" ++ t := by
  intro xs
  induction xs with
  | nil => intro i e he; simp [validateRoutes] at he
  | cons r rest ih =>
    intro i e he
    rw [validateRoutes] at he
    split at he
    · simp at he
    · dsimp only at he
      simp only [List.mem_append] at he
      rcases he with he | he
      · rcases he with he | he
        · split at he
          · rw [List.mem_singleton] at he
            subst he
            exact ⟨toString i ++ "].path", by simp [String.append_assoc]⟩
          · simp at he
        · split at he
          · rw [List.mem_singleton] at he
            subst he
            exact ⟨toString i ++ "].component", by simp [String.append_assoc]⟩
          · simp at he
      · exact ih (i + 1) e he

lemma validateEntities_prefix :
    ∀ (xs : List JsValue) (i : Nat), ∀ e ∈ (validateEntities xs i).1,
      ∃ t, e.path = "entities[" ++ t := by
  intro xs
  induction xs with
  | nil => intro i e he; simp [validateEntities] at he
  | cons x rest ih =>
    intro i e he
    rw [validateEntities] at he
    split at he
    · simp at he
    · dsimp only at he
      simp only [List.mem_append] at he
      rcases he with he | he
      · split at he
        · rw [List.mem_singleton] at he
          subst he
          exact ⟨toString i ++ "].name", by simp [String.append_assoc]⟩
        · simp at he
      · exact ih (i + 1) e he

lemma append_ne_empty_of_left {a : String} (b : String) (h : a ≠ "") : a ++ b ≠ "" := by
  intro hc
  apply h
  cases a with
  | mk da =>
    cases b with
    | mk db =>
      rw [String.ext_iff] at hc ⊢
      simp [String.data_append] at hc ⊢
      simp [hc.1]

lemma validateActivity_prefix (a : JsValue) (ap : String) :
    ∀ e ∈ (validateActivity a ap).1, ∃ t, e.path = ap ++ t := by
  intro e he
  rw [validateActivity] at he
  split at he
  · simp at he
    subst he
    exact ⟨"", append_empty_eq ap⟩
  · dsimp only at he
    split at he
    · simp only [List.mem_append] at he
      rcases he with he | he
      · split at he
        · simp at he
          subst he
          exact ⟨".name", rfl⟩
        · simp at he
      · simp at he
        subst he
        exact ⟨".steps", rfl⟩
    · simp only [List.mem_append] at he
      rcases he with he | he
      · split at he
        · simp at he
          subst he
          exact ⟨".name", rfl⟩
        · simp at he
      · obtain ⟨t, ht⟩ := validateStepList_prefix (arrElems (getField a "steps"))
          (ap ++ ".steps") 0 e he
        exact ⟨".steps" ++ t, by rw [ht]; simp [String.append_assoc]⟩

lemma validateActivities_prefix :
    ∀ (xs : List JsValue) (bp : String) (i : Nat), ∀ e ∈ (validateActivities xs bp i).1,
      ∃ t, e.path = bp ++ t := by
  intro xs
  induction xs with
  | nil => intro bp i e he; simp [validateActivities] at he
  | cons a rest ih =>
    intro bp i e he
    rw [validateActivities] at he
    split at he
    · rename_i es m hmatch
      have hmem : e ∈ (validateActivity a (bp ++ "[" ++ toString i ++ "]")).1 := by
        rw [hmatch]
        exact he
      obtain ⟨t, ht⟩ := validateActivity_prefix a (bp ++ "[" ++ toString i ++ "]") e hmem
      exact ⟨"[" ++ toString i ++ "]" ++ t, by rw [ht]; simp [String.append_assoc]⟩
    · rename_i es hmatch
      dsimp only at he
      simp only [List.mem_append] at he
      rcases he with he | he
      · have hmem : e ∈ (validateActivity a (bp ++ "[" ++ toString i ++ "]")).1 := by
          rw [hmatch]
          exact he
        obtain ⟨t, ht⟩ := validateActivity_prefix a (bp ++ "[" ++ toString i ++ "]") e hmem
        exact ⟨"[" ++ toString i ++ "]" ++ t, by rw [ht]; simp [String.append_assoc]⟩
      · exact ih bp (i + 1) e he

lemma addAjvErrorsWorkflow_root_path_ne (l : List AjvError) :
    ∀ e ∈ addAjvErrorsWorkflow l "", e.path ≠ "" := by
  intro e he
  simp [addAjvErrorsWorkflow] at he
  obtain ⟨a, _, rfl⟩ := he
  split
  · simp
  · rename_i hne
    exact hne

lemma validateWorkflowStructure_warn_nil (d : JsValue) :
    (validateWorkflowStructure d).2.1 = [] := by
  rw [validateWorkflowStructure]
  split
  · rfl
  · split
    · rfl
    · simp [checkDeprecatedProperties, workflowDeprecations]

lemma validateModuleStructure_err_ne (d : JsValue) :
    ∀ e ∈ (validateModuleStructure d).1, e.path ≠ "" := by
  intro e he
  rw [validateModuleStructure] at he
  split at he
  · simp at he
  · split at he
    · simp at he
      subst he
      simp [missingProperty]
    · dsimp only at he
      simp only [List.mem_append] at he
      rcases he with ((he | he) | he) | he <;> split at he <;> simp at he <;>
        (subst he; simp [missingProperty])

lemma validateWorkflowStructure_err_ne (d : JsValue) :
    ∀ e ∈ (validateWorkflowStructure d).1, e.path ≠ "" := by
  intro e he
  rw [validateWorkflowStructure] at he
  split at he
  · simp at he
  · split at he
    · simp at he
      subst he
      simp [missingProperty]
    · dsimp only at he
      simp only [List.mem_append] at he
      rcases he with (he | he) | he <;> split at he <;> simp at he <;>
        (subst he; simp [missingProperty])

/-! ## Concrete fixtures -/

/-- A schema store with no registered schemas (also the shape of the shipped
store for component types with no `components/<type>.json` file). -/
def emptyStore : SchemaStore := ⟨[], fun _ _ => []⟩

/-- The end-to-end example document `{module: {name: "X"}, components: [{}]}`. -/
def sampleModuleC3 : JsValue :=
  .obj [("module", .obj [("name", .str "X")]), ("components", .arr [.obj []])]

/-- A document with no `module` key whose `components` section is malformed:
`{components: [{}]}`. -/
def sampleModuleC1 : JsValue := .obj [("components", .arr [.obj []])]

/-- C3: the spec's end-to-end example.  `{module: {name: "X"},
components: [{}]}` yields exactly the three `missing_property` errors at
`module.appModuleId`, `module.displayName` and `components[0].name`, in that
order, with `isValid = false` and `summary.errorCount = 3`. -/
theorem claim3_end_to_end (store : SchemaStore) (iw : Bool) (fp ts : String) :
    (validateModule store iw fp (.doc sampleModuleC3) ts).errors =
      [missingProperty "module.appModuleId",
       missingProperty "module.displayName",
       { type := "missing_property", path := "components[0].name",
         message := "Component must have a name property" }] ∧
    (validateModule store iw fp (.doc sampleModuleC3) ts).isValid = false ∧
    (validateModule store iw fp (.doc sampleModuleC3) ts).summary.errorCount = 3 := by
  refine ⟨?_, ?_, ?_⟩ <;>
    (simp [validateModule, validateModuleStructure, validateComponents, validateComponent,
      checkDeprecatedProperties, moduleDeprecations, hasProp, getField, truthy, typeofIsObject,
      isArray, arrElems, createResult, countByType, missingProperty, sampleModuleC3, List.lookup]
     all_goals decide)

/-- The nested-component fixture of C2: two top-level components, the 2nd
has a `layout` whose 3rd child (`children[2]`) is missing `name` (but does
carry its `component` type tag). -/
def sampleModuleC2 : JsValue :=
  .obj [("module", .obj [("name", .str "M"), ("appModuleId", .str "app"),
                         ("displayName", .str "D")]),
        ("components", .arr [
          .obj [("name", .str "c0")],
          .obj [("name", .str "c1"),
                ("layout", .obj [("component", .str "layout"),
                                 ("children", .arr [
                                    .obj [("component", .str "x"), ("name", .str "k0")],
                                    .obj [("component", .str "x"), ("name", .str "k1")],
                                    .obj [("component", .str "button")]])])]])]

/-- The same fixture with the 3rd child instead missing its `component`
type tag. -/
def sampleModuleC2amended : JsValue :=
  .obj [("module", .obj [("name", .str "M"), ("appModuleId", .str "app"),
                         ("displayName", .str "D")]),
        ("components", .arr [
          .obj [("name", .str "c0")],
          .obj [("name", .str "c1"),
                ("layout", .obj [("component", .str "layout"),
                                 ("children", .arr [
                                    .obj [("component", .str "x"), ("name", .str "k0")],
                                    .obj [("component", .str "x"), ("name", .str "k1")],
                                    .obj [("name", .str "k2")]])])]])]

/-- C1 fails on the code: a document with no `module` key but a malformed
`components` section yields TWO violations — the `missing_property` at
`module` and a `missing_property` at `components[0].name` — because
`validateModule` still validates `components`/`routes`/`entities` after the
structure check returned early. -/
theorem claim1_counterexample :
    (validateModule emptyStore true "module.yaml" (.doc sampleModuleC1) "t").errors =
      [missingProperty "module",
       { type := "missing_property", path := "components[0].name",
         message := "Component must have a name property" }] := by
  simp [validateModule, validateModuleStructure, validateComponents, validateComponent,
    checkDeprecatedProperties, moduleDeprecations, hasProp, getField, truthy, typeofIsObject,
    isArray, arrElems, createResult, missingProperty, sampleModuleC1, List.lookup, emptyStore]
  all_goals decide

/-- C2 fails on the code: on a fixture whose 2nd component's layout has a
3rd child missing `name`, no violation is reported at
`components[1].layout.children[2].name` — the nested walker checks the
`component` type tag, not `name` (here the whole run is violation-free). -/
theorem claim2_counterexample :
    getField (.obj [("component", .str "button")]) "name" = .undefined ∧
    (validateModule emptyStore true "module.yaml" (.doc sampleModuleC2) "t").errors = [] := by
  constructor
  · decide
  · simp [validateModule, validateModuleStructure, validateComponents, validateComponent,
      validateNestedComponent, validateChildren, validateComponentProps,
      checkDeprecatedProperties, moduleDeprecations, hasProp, getField, truthy, typeofIsObject,
      isArray, arrElems, createResult, missingProperty, sampleModuleC2, List.lookup, emptyStore,
      jsTemplateStr]
    all_goals decide

/-- C2 amended: a 3rd child missing its `component` type tag yields exactly
one violation, at `components[1].layout.children[2].component`. -/
theorem claim2_amended :
    (validateModule emptyStore true "module.yaml" (.doc sampleModuleC2amended) "t").errors =
      [{ type := "missing_property", path := "components[1].layout.children[2].component",
         message := "Component must have a component type" }] := by
  simp [validateModule, validateModuleStructure, validateComponents, validateComponent,
    validateNestedComponent, validateChildren, validateComponentProps,
    checkDeprecatedProperties, moduleDeprecations, hasProp, getField, truthy, typeofIsObject,
    isArray, arrElems, createResult, missingProperty, sampleModuleC2amended, List.lookup,
    emptyStore, jsTemplateStr]
  all_goals decide

/-- C6 fails as stated: a `yaml.load` throw is caught by the INNER handler
and becomes one `yaml_syntax_error` violation, not an `unexpected_error`. -/
theorem claim6_counterexample :
    (validateModule emptyStore true "module.yaml" (.yamlThrow "bad mapping") "t").errors =
      [yamlSyntaxErrorV "module.yaml" "bad mapping"] ∧
    ∀ e ∈ (validateModule emptyStore true "module.yaml" (.yamlThrow "bad mapping") "t").errors,
      e.type ≠ "unexpected_error" := by
  constructor
  · rfl
  · intro e he
    simp [validateModule, createResult] at he
    subst he
    simp [yamlSyntaxErrorV]

/-- C6 amended: both validators are total — every pipeline outcome yields a
`ValidationResult`.  A throw while reading the file, or a throw during
validation (here: a nullish document making the first property access
throw), is caught at the top level and becomes exactly one
`unexpected_error` whose path is the file path; a `yaml.load` throw is
caught by the inner handler and becomes exactly one `yaml_syntax_error`;
a missing file becomes exactly one `file_not_found`. -/
theorem claim6_amended (store : SchemaStore) (iw : Bool) (fp ts msg : String) :
    (validateModule store iw fp (.readThrow msg) ts).errors = [unexpectedErrorV fp msg] ∧
    (validateWorkflow store iw fp (.readThrow msg) ts).errors = [unexpectedErrorV fp msg] ∧
    (validateModule store iw fp (.yamlThrow msg) ts).errors = [yamlSyntaxErrorV fp msg] ∧
    (validateWorkflow store iw fp (.yamlThrow msg) ts).errors = [yamlSyntaxErrorV fp msg] ∧
    (validateModule store iw fp .missing ts).errors = [fileNotFoundError fp] ∧
    (validateWorkflow store iw fp .missing ts).errors = [fileNotFoundError fp] ∧
    (validateModule store iw fp (.doc .null) ts).errors =
      [unexpectedErrorV fp (readErrorMessage .null "module")] ∧
    (validateWorkflow store iw fp (.doc .null) ts).errors =
      [unexpectedErrorV fp (readErrorMessage .null "workflow")] := by
  refine ⟨rfl, rfl, rfl, rfl, rfl, rfl, ?_, ?_⟩
  · simp [validateModule, validateModuleStructure, createResult]
  · simp [validateWorkflow, validateWorkflowStructure, createResult]

/-- The C4 fixture: a `switch` step with two cases of one nested step each
and a `default` of one nested step. -/
def switchStepDoc (v1 v2 v3 : JsValue) : JsValue :=
  .obj [("task", .str "switch"),
        ("cases", .arr [.obj [("steps", .arr [v1])], .obj [("steps", .arr [v2])]]),
        ("default", .obj [("steps", .arr [v3])])]

lemma validateStep_invalid {v : JsValue} (p : String)
    (h : (truthy v && typeofIsObject v) = false) :
    validateStep v p =
      ([{ type := "schema_violation", path := p, message := "Step must be an object" }],
       none) := by
  rw [validateStep]
  simp [h]

lemma truthy_obj (fields : List (String × JsValue)) : truthy (.obj fields) = true := rfl

lemma truthy_str (s : String) : truthy (.str s) = (s != "") := rfl

lemma typeofIsObject_obj (fields : List (String × JsValue)) :
    typeofIsObject (.obj fields) = true := rfl

lemma getField_obj (fields : List (String × JsValue)) (k : String) :
    getField (.obj fields) k =
      (match fields.lookup k with
       | some v => v
       | none => .undefined) := rfl

/-- C4: for every step path and every three invalid (non-object in the
JavaScript sense) nested steps, the step walker on the switch fixture emits
exactly three `schema_violation`s at `cases[0].steps[0]`, `cases[1].steps[0]`
and `default.steps[0]` relative to the switch step's path (and no throw). -/
theorem claim4_switch_completeness (p : String) (v1 v2 v3 : JsValue)
    (h1 : (truthy v1 && typeofIsObject v1) = false)
    (h2 : (truthy v2 && typeofIsObject v2) = false)
    (h3 : (truthy v3 && typeofIsObject v3) = false) :
    validateStep (switchStepDoc v1 v2 v3) p =
      ([{ type := "schema_violation", path := p ++ ".cases[0].steps[0]",
          message := "Step must be an object" },
        { type := "schema_violation", path := p ++ ".cases[1].steps[0]",
          message := "Step must be an object" },
        { type := "schema_violation", path := p ++ ".default.steps[0]",
          message := "Step must be an object" }], none) := by
  have hts0 : toString (0 : Nat) = "0" := rfl
  have hts1 : toString (1 : Nat) = "1" := rfl
  simp [validateStep, validateNestedSteps, validateSwitchCases, validateStepList,
    switchStepDoc, truthy_obj, truthy_str, typeofIsObject_obj, getField_obj,
    List.lookup, h1, h2, h3, hts0, hts1, String.append_assoc]

/-- C4 witness at concrete invalid steps (strings) and a concrete path. -/
theorem claim4_switch_completeness_witness :
    (truthy (.str "a") && typeofIsObject (.str "a")) = false ∧
    (truthy (.str "b") && typeofIsObject (.str "b")) = false ∧
    (truthy .null && typeofIsObject .null) = false ∧
    validateStep (switchStepDoc (.str "a") (.str "b") .null) "activities[0].steps[0]" =
      ([{ type := "schema_violation", path := "activities[0].steps[0]" ++ ".cases[0].steps[0]",
          message := "Step must be an object" },
        { type := "schema_violation", path := "activities[0].steps[0]" ++ ".cases[1].steps[0]",
          message := "Step must be an object" },
        { type := "schema_violation", path := "activities[0].steps[0]" ++ ".default.steps[0]",
          message := "Step must be an object" }], none) :=
  ⟨by decide, by decide, by decide,
   claim4_switch_completeness "activities[0].steps[0]" (.str "a") (.str "b") .null
     (by decide) (by decide) (by decide)⟩

/-- C5: a component node whose `component` tag is a string with no
registered `components/<type>.json` schema produces no schema errors of its
own — the walker's output is exactly the recursion into `children` and
`props` (the node is skipped silently by the permissive fallback). -/
theorem claim5_permissive_unknown_type (store : SchemaStore) (node : JsValue)
    (p : String) (ty : String) (hty : getField node "component" = .str ty) (hne : ty ≠ "")
    (hreg : ("components/" ++ ty ++ ".json") ∉ store.keys) :
    validateNestedComponent store node p =
      (match getField node "children" with
       | .arr children => validateChildren store children p 0
       | _ => []) ++
      (if truthy (getField node "props") then
        validateComponentProps store (getField node "props") (p ++ ".props")
      else []) := by
  have hobj : ∃ fields, node = .obj fields := by
    cases node <;> simp [getField] at hty
    exact ⟨_, rfl⟩
  obtain ⟨fields, rfl⟩ := hobj
  rw [validateNestedComponent]
  rw [if_neg (by simp [truthy, typeofIsObject])]
  dsimp only
  rw [hty]
  rw [if_neg (by simp [truthy, hne])]
  rw [jsTemplateStr]
  rw [if_neg (by simpa using hreg)]
  simp
  cases hch : getField (JsValue.obj fields) "children" <;> rfl

/-- C5 witness: an unknown component type against the empty store. -/
theorem claim5_permissive_unknown_type_witness :
    getField (.obj [("component", .str "totallyUnknownType")]) "component" =
      .str "totallyUnknownType" ∧
    "totallyUnknownType" ≠ "" ∧
    ("components/" ++ "totallyUnknownType" ++ ".json") ∉ emptyStore.keys ∧
    validateNestedComponent emptyStore (.obj [("component", .str "totallyUnknownType")])
        "components[0].layout" =
      (match getField (.obj [("component", .str "totallyUnknownType")]) "children" with
       | .arr children => validateChildren emptyStore children "components[0].layout" 0
       | _ => []) ++
      (if truthy (getField (.obj [("component", .str "totallyUnknownType")]) "props") then
        validateComponentProps emptyStore
          (getField (.obj [("component", .str "totallyUnknownType")]) "props")
          ("components[0].layout" ++ ".props")
      else []) :=
  ⟨by decide, by decide, by simp [emptyStore],
   claim5_permissive_unknown_type emptyStore
     (.obj [("component", .str "totallyUnknownType")]) "components[0].layout"
     "totallyUnknownType" (by decide) (by decide) (by simp [emptyStore])⟩

/-- C7: for both validators, `isValid` holds exactly when the error list is
empty; `summary.errorCount` and `summary.status` are determined by the
errors alone; and `createResult` computes `isValid`, `status` and
`errorCount` independently of the collected warnings. -/
theorem claim7_warnings_dont_affect_validity (store : SchemaStore) (iw : Bool)
    (fp : String) (input : PipelineInput) (ts : String) :
    ((validateModule store iw fp input ts).isValid = true ↔
      (validateModule store iw fp input ts).errors = []) ∧
    (validateModule store iw fp input ts).summary.errorCount =
      (validateModule store iw fp input ts).errors.length ∧
    (validateModule store iw fp input ts).summary.status =
      (if (validateModule store iw fp input ts).errors = [] then "PASSED" else "FAILED") ∧
    ((validateWorkflow store iw fp input ts).isValid = true ↔
      (validateWorkflow store iw fp input ts).errors = []) ∧
    (validateWorkflow store iw fp input ts).summary.errorCount =
      (validateWorkflow store iw fp input ts).errors.length ∧
    (validateWorkflow store iw fp input ts).summary.status =
      (if (validateWorkflow store iw fp input ts).errors = [] then "PASSED" else "FAILED") ∧
    (∀ (es : List ValidationError) (ws ws' : List ValidationWarning),
      (createResult iw fp es ws ts).isValid = (createResult iw fp es ws' ts).isValid ∧
      (createResult iw fp es ws ts).summary.status =
        (createResult iw fp es ws' ts).summary.status ∧
      (createResult iw fp es ws ts).summary.errorCount =
        (createResult iw fp es ws' ts).summary.errorCount) := by
  obtain ⟨E, W, hm⟩ := validateModule_shape store fp input
  obtain ⟨E2, W2, hw⟩ := validateWorkflow_shape store fp input
  rw [hm iw ts, hw iw ts]
  refine ⟨?_, ?_, ?_, ?_, ?_, ?_, ?_⟩ <;>
    simp [createResult, List.isEmpty_iff]

/-- C9: validation is deterministic and the timestamp only enters the
summary's `timestamp` field — two runs over the same store, file path and
parsed input agree on errors, warnings, validity and every other summary
field. -/
theorem claim9_determinism (store : SchemaStore) (iw : Bool) (fp : String)
    (input : PipelineInput) (ts1 ts2 : String) :
    (validateModule store iw fp input ts1).errors =
      (validateModule store iw fp input ts2).errors ∧
    (validateModule store iw fp input ts1).warnings =
      (validateModule store iw fp input ts2).warnings ∧
    (validateModule store iw fp input ts1).isValid =
      (validateModule store iw fp input ts2).isValid ∧
    (validateModule store iw fp input ts1).summary.file =
      (validateModule store iw fp input ts2).summary.file ∧
    (validateModule store iw fp input ts1).summary.status =
      (validateModule store iw fp input ts2).summary.status ∧
    (validateModule store iw fp input ts1).summary.errorCount =
      (validateModule store iw fp input ts2).summary.errorCount ∧
    (validateModule store iw fp input ts1).summary.warningCount =
      (validateModule store iw fp input ts2).summary.warningCount ∧
    (validateModule store iw fp input ts1).summary.errorsByType =
      (validateModule store iw fp input ts2).summary.errorsByType ∧
    (validateWorkflow store iw fp input ts1).errors =
      (validateWorkflow store iw fp input ts2).errors ∧
    (validateWorkflow store iw fp input ts1).warnings =
      (validateWorkflow store iw fp input ts2).warnings ∧
    (validateWorkflow store iw fp input ts1).isValid =
      (validateWorkflow store iw fp input ts2).isValid ∧
    (validateWorkflow store iw fp input ts1).summary.file =
      (validateWorkflow store iw fp input ts2).summary.file ∧
    (validateWorkflow store iw fp input ts1).summary.status =
      (validateWorkflow store iw fp input ts2).summary.status ∧
    (validateWorkflow store iw fp input ts1).summary.errorCount =
      (validateWorkflow store iw fp input ts2).summary.errorCount ∧
    (validateWorkflow store iw fp input ts1).summary.warningCount =
      (validateWorkflow store iw fp input ts2).summary.warningCount ∧
    (validateWorkflow store iw fp input ts1).summary.errorsByType =
      (validateWorkflow store iw fp input ts2).summary.errorsByType := by
  obtain ⟨E, W, hm⟩ := validateModule_shape store fp input
  obtain ⟨E2, W2, hw⟩ := validateWorkflow_shape store fp input
  rw [hm iw ts1, hm iw ts2, hw iw ts1, hw iw ts2]
  refine ⟨rfl, rfl, rfl, rfl, rfl, rfl, rfl, rfl, rfl, rfl, rfl, rfl, rfl, rfl, rfl, rfl⟩

/-- A module document carrying a deprecated `key` property on its only
component (one warning is collected). -/
def sampleModuleC10 : JsValue :=
  .obj [("module", .obj [("name", .str "M"), ("appModuleId", .str "app"),
                         ("displayName", .str "D")]),
        ("components", .arr [.obj [("name", .str "c"), ("key", .str "k")]])]

/-- C10: with `includeWarnings := false` the result's warnings list is
always empty while `summary.warningCount` still counts the warnings that
validation collected (what a run with `includeWarnings := true` returns);
in particular the count can be positive while the list is empty. -/
theorem claim10_warning_count :
    (∀ (store : SchemaStore) (fp : String) (input : PipelineInput) (ts : String),
      (validateModule store false fp input ts).warnings = [] ∧
      (validateModule store false fp input ts).summary.warningCount =
        (validateModule store true fp input ts).warnings.length ∧
      (validateWorkflow store false fp input ts).warnings = [] ∧
      (validateWorkflow store false fp input ts).summary.warningCount =
        (validateWorkflow store true fp input ts).warnings.length) ∧
    (validateModule emptyStore false "module.yaml" (.doc sampleModuleC10) "t").warnings = [] ∧
    (validateModule emptyStore false "module.yaml"
        (.doc sampleModuleC10) "t").summary.warningCount = 1 := by
  refine ⟨fun store fp input ts => ?_, ?_, ?_⟩
  · obtain ⟨E, W, hm⟩ := validateModule_shape store fp input
    obtain ⟨E2, W2, hw⟩ := validateWorkflow_shape store fp input
    rw [hm false ts, hm true ts, hw false ts, hw true ts]
    refine ⟨rfl, rfl, rfl, rfl⟩
  · rfl
  · simp [validateModule, validateModuleStructure, validateComponents, validateComponent,
      checkDeprecatedProperties, moduleDeprecations, hasProp, getField, truthy, typeofIsObject,
      isArray, arrElems, createResult, sampleModuleC10, List.lookup, emptyStore]
    all_goals decide

lemma validateModule_err_path_ne (store : SchemaStore) (iw : Bool) (fp : String)
    (input : PipelineInput) (ts : String) (hfp : fp ≠ "") :
    ∀ e ∈ (validateModule store iw fp input ts).errors, e.path ≠ "" := by
  cases input with
  | missing =>
    intro e he
    simp [validateModule, createResult, fileNotFoundError] at he
    subst he
    exact hfp
  | readThrow m =>
    intro e he
    simp [validateModule, createResult, unexpectedErrorV] at he
    subst he
    exact hfp
  | yamlThrow m =>
    intro e he
    simp [validateModule, createResult, yamlSyntaxErrorV] at he
    subst he
    exact hfp
  | doc d =>
    rcases hs : validateModuleStructure d with ⟨es, exc⟩
    have hes : ∀ e ∈ es, e.path ≠ "" := by
      intro e he
      apply validateModuleStructure_err_ne d
      rw [hs]
      exact he
    cases exc with
    | some m =>
      intro e he
      rw [validateModule, hs] at he
      simp only [createResult] at he
      simp only [List.mem_append] at he
      rcases he with he | he
      · exact hes e he
      · simp [unexpectedErrorV] at he
        subst he
        exact hfp
    | none =>
      rcases hr : (if truthy (getField d "routes") && isArray (getField d "routes") then
          validateRoutes (arrElems (getField d "routes")) 0
        else ([], none)) with ⟨re, rexc⟩
      have hre : ∀ e ∈ re, e.path ≠ "" := by
        intro e he
        split at hr
        · have : e ∈ (validateRoutes (arrElems (getField d "routes")) 0).1 := by
            rw [hr]
            exact he
          obtain ⟨t, ht⟩ := validateRoutes_prefix (arrElems (getField d "routes")) 0 e this
          rw [ht]
          exact append_ne_empty_of_left _ (by decide)
        · rw [Prod.mk.injEq] at hr
          rw [← hr.1] at he
          simp at he
      have hcomp : ∀ e ∈ (if truthy (getField d "components") &&
            isArray (getField d "components") then
          validateComponents store (arrElems (getField d "components")) 0
        else ([], [])).1, e.path ≠ "" := by
        intro e he
        split at he
        · obtain ⟨t, ht⟩ := validateComponents_err_prefix store
            (arrElems (getField d "components")) 0 e he
          rw [ht]
          exact append_ne_empty_of_left _ (by decide)
        · simp at he
      cases rexc with
      | some m =>
        intro e he
        rw [validateModule, hs, hr] at he
        simp only [createResult] at he
        simp only [List.mem_append] at he
        rcases he with ((he | he) | he) | he
        · exact hes e he
        · exact hcomp e he
        · exact hre e he
        · simp [unexpectedErrorV] at he
          subst he
          exact hfp
      | none =>
        rcases hn : (if truthy (getField d "entities") && isArray (getField d "entities") then
            validateEntities (arrElems (getField d "entities")) 0
          else ([], none)) with ⟨ne, nexc⟩
        have hne2 : ∀ e ∈ ne, e.path ≠ "" := by
          intro e he
          split at hn
          · have : e ∈ (validateEntities (arrElems (getField d "entities")) 0).1 := by
              rw [hn]
              exact he
            obtain ⟨t, ht⟩ := validateEntities_prefix (arrElems (getField d "entities")) 0 e this
            rw [ht]
            exact append_ne_empty_of_left _ (by decide)
          · rw [Prod.mk.injEq] at hn
            rw [← hn.1] at he
            simp at he
        cases nexc with
        | some m =>
          intro e he
          rw [validateModule, hs, hr, hn] at he
          simp only [createResult] at he
          simp only [List.mem_append] at he
          rcases he with (((he | he) | he) | he) | he
          · exact hes e he
          · exact hcomp e he
          · exact hre e he
          · exact hne2 e he
          · simp [unexpectedErrorV] at he
            subst he
            exact hfp
        | none =>
          intro e he
          rw [validateModule, hs, hr, hn] at he
          simp only [createResult] at he
          simp only [List.mem_append] at he
          rcases he with ((he | he) | he) | he
          · exact hes e he
          · exact hcomp e he
          · exact hre e he
          · exact hne2 e he

lemma validateModule_warn_path_ne (store : SchemaStore) (iw : Bool) (fp : String)
    (input : PipelineInput) (ts : String) :
    ∀ w ∈ (validateModule store iw fp input ts).warnings, w.path ≠ "" := by
  have hw : ∀ (ws : List ValidationWarning),
      (∀ w ∈ ws, w.path ≠ "") → ∀ w ∈ (if iw then ws else []), w.path ≠ "" := by
    intro ws h w hmem
    split at hmem
    · exact h w hmem
    · simp at hmem
  cases input with
  | missing => intro w hmem; revert hmem; simp [validateModule, createResult]
  | readThrow m => intro w hmem; revert hmem; simp [validateModule, createResult]
  | yamlThrow m => intro w hmem; revert hmem; simp [validateModule, createResult]
  | doc d =>
    rcases hs : validateModuleStructure d with ⟨es, exc⟩
    have hcompw : ∀ w ∈ (if truthy (getField d "components") &&
          isArray (getField d "components") then
        validateComponents store (arrElems (getField d "components")) 0
      else ([], [])).2, w.path ≠ "" := by
      intro w hmem
      split at hmem
      · obtain ⟨t, ht⟩ := validateComponents_warn_prefix store
          (arrElems (getField d "components")) 0 w hmem
        rw [ht]
        exact append_ne_empty_of_left _ (by decide)
      · simp at hmem
    cases exc with
    | some m =>
      intro w hmem
      rw [validateModule, hs] at hmem
      simp only [createResult] at hmem
      exact hw [] (by simp) w hmem
    | none =>
      rcases hr : (if truthy (getField d "routes") && isArray (getField d "routes") then
          validateRoutes (arrElems (getField d "routes")) 0
        else ([], none)) with ⟨re, rexc⟩
      cases rexc with
      | some m =>
        intro w hmem
        rw [validateModule, hs, hr] at hmem
        simp only [createResult] at hmem
        exact hw _ hcompw w hmem
      | none =>
        rcases hn : (if truthy (getField d "entities") && isArray (getField d "entities") then
            validateEntities (arrElems (getField d "entities")) 0
          else ([], none)) with ⟨ne, nexc⟩
        cases nexc with
        | some m =>
          intro w hmem
          rw [validateModule, hs, hr, hn] at hmem
          simp only [createResult] at hmem
          exact hw _ hcompw w hmem
        | none =>
          intro w hmem
          rw [validateModule, hs, hr, hn] at hmem
          simp only [createResult] at hmem
          exact hw _ hcompw w hmem

lemma validateWorkflow_err_path_ne (store : SchemaStore) (iw : Bool) (fp : String)
    (input : PipelineInput) (ts : String) (hfp : fp ≠ "") :
    ∀ e ∈ (validateWorkflow store iw fp input ts).errors, e.path ≠ "" := by
  cases input with
  | missing =>
    intro e he
    simp [validateWorkflow, createResult, fileNotFoundError] at he
    subst he
    exact hfp
  | readThrow m =>
    intro e he
    simp [validateWorkflow, createResult, unexpectedErrorV] at he
    subst he
    exact hfp
  | yamlThrow m =>
    intro e he
    simp [validateWorkflow, createResult, yamlSyntaxErrorV] at he
    subst he
    exact hfp
  | doc d =>
    rcases hs : validateWorkflowStructure d with ⟨es, ws, exc⟩
    have hes : ∀ e ∈ es, e.path ≠ "" := by
      intro e he
      apply validateWorkflowStructure_err_ne d
      rw [hs]
      exact he
    have hschema : ∀ e ∈ (if store.keys.contains "workflow.json" then
        addAjvErrorsWorkflow (store.eval "workflow.json" d) "" else []), e.path ≠ "" := by
      intro e he
      split at he
      · exact addAjvErrorsWorkflow_root_path_ne _ e he
      · simp at he
    cases exc with
    | some m =>
      intro e he
      rw [validateWorkflow, hs] at he
      simp only [createResult] at he
      simp only [List.mem_append] at he
      rcases he with he | he
      · exact hes e he
      · simp [unexpectedErrorV] at he
        subst he
        exact hfp
    | none =>
      rcases ha : (if truthy (getField d "activities") && isArray (getField d "activities") then
          validateActivities (arrElems (getField d "activities")) "activities" 0
        else ([], none)) with ⟨ae, aexc⟩
      have hae : ∀ e ∈ ae, e.path ≠ "" := by
        intro e he
        split at ha
        · have : e ∈ (validateActivities (arrElems (getField d "activities"))
              "activities" 0).1 := by
            rw [ha]
            exact he
          obtain ⟨t, ht⟩ := validateActivities_prefix (arrElems (getField d "activities"))
            "activities" 0 e this
          rw [ht]
          exact append_ne_empty_of_left _ (by decide)
        · rw [Prod.mk.injEq] at ha
          rw [← ha.1] at he
          simp at he
      cases aexc with
      | some m =>
        intro e he
        rw [validateWorkflow, hs, ha] at he
        simp only [createResult] at he
        simp only [List.mem_append] at he
        rcases he with ((he | he) | he) | he
        · exact hes e he
        · exact hschema e he
        · exact hae e he
        · simp [unexpectedErrorV] at he
          subst he
          exact hfp
      | none =>
        intro e he
        rw [validateWorkflow, hs, ha] at he
        simp only [createResult] at he
        simp only [List.mem_append] at he
        rcases he with (he | he) | he
        · exact hes e he
        · exact hschema e he
        · exact hae e he

lemma validateWorkflow_warn_nil (store : SchemaStore) (iw : Bool) (fp : String)
    (input : PipelineInput) (ts : String) :
    (validateWorkflow store iw fp input ts).warnings = [] := by
  cases input with
  | missing => simp [validateWorkflow, createResult]
  | readThrow m => simp [validateWorkflow, createResult]
  | yamlThrow m => simp [validateWorkflow, createResult]
  | doc d =>
    rcases hs : validateWorkflowStructure d with ⟨es, ws, exc⟩
    have hws : ws = [] := by
      have := validateWorkflowStructure_warn_nil d
      rw [hs] at this
      exact this
    subst hws
    cases exc with
    | some m =>
      rw [validateWorkflow, hs]
      simp [createResult]
    | none =>
      rcases ha : (if truthy (getField d "activities") && isArray (getField d "activities") then
          validateActivities (arrElems (getField d "activities")) "activities" 0
        else ([], none)) with ⟨ae, aexc⟩
      cases aexc with
      | some m =>
        rw [validateWorkflow, hs, ha]
        simp [createResult]
      | none =>
        rw [validateWorkflow, hs, ha]
        simp [createResult]

/-- C8: with a well-formed (non-empty) file path, every violation either
validator emits has a non-empty path — including workflow root-schema
violations, which fall back to "/" — and the violations produced before any
document structure exists (`file_not_found`, `yaml_syntax_error`,
`unexpected_error` from a read failure) carry the supplied file path
itself as their path. -/
theorem claim8_nonempty_paths (store : SchemaStore) (iw : Bool) (fp : String)
    (input : PipelineInput) (ts : String) (hfp : fp ≠ "") :
    (∀ e ∈ (validateModule store iw fp input ts).errors, e.path ≠ "") ∧
    (∀ w ∈ (validateModule store iw fp input ts).warnings, w.path ≠ "") ∧
    (∀ e ∈ (validateWorkflow store iw fp input ts).errors, e.path ≠ "") ∧
    (∀ w ∈ (validateWorkflow store iw fp input ts).warnings, w.path ≠ "") ∧
    (∀ e ∈ (validateModule store iw fp .missing ts).errors, e.path = fp) ∧
    (∀ msg : String, ∀ e ∈ (validateModule store iw fp (.readThrow msg) ts).errors,
      e.path = fp) ∧
    (∀ msg : String, ∀ e ∈ (validateModule store iw fp (.yamlThrow msg) ts).errors,
      e.path = fp) ∧
    (∀ e ∈ (validateWorkflow store iw fp .missing ts).errors, e.path = fp) ∧
    (∀ msg : String, ∀ e ∈ (validateWorkflow store iw fp (.readThrow msg) ts).errors,
      e.path = fp) ∧
    (∀ msg : String, ∀ e ∈ (validateWorkflow store iw fp (.yamlThrow msg) ts).errors,
      e.path = fp) := by
  refine ⟨validateModule_err_path_ne store iw fp input ts hfp,
          validateModule_warn_path_ne store iw fp input ts,
          validateWorkflow_err_path_ne store iw fp input ts hfp,
          by simp [validateWorkflow_warn_nil],
          ?_, ?_, ?_, ?_, ?_, ?_⟩
  · intro e he
    simp [validateModule, createResult, fileNotFoundError] at he
    subst he
    rfl
  · intro msg e he
    simp [validateModule, createResult, unexpectedErrorV] at he
    subst he
    rfl
  · intro msg e he
    simp [validateModule, createResult, yamlSyntaxErrorV] at he
    subst he
    rfl
  · intro e he
    simp [validateWorkflow, createResult, fileNotFoundError] at he
    subst he
    rfl
  · intro msg e he
    simp [validateWorkflow, createResult, unexpectedErrorV] at he
    subst he
    rfl
  · intro msg e he
    simp [validateWorkflow, createResult, yamlSyntaxErrorV] at he
    subst he
    rfl

/-- C8 witness at a concrete path, store and document. -/
theorem claim8_nonempty_paths_witness :
    ("module.yaml" : String) ≠ "" ∧
    ((∀ e ∈ (validateModule emptyStore true "module.yaml"
        (.doc sampleModuleC3) "t").errors, e.path ≠ "") ∧
     (∀ w ∈ (validateModule emptyStore true "module.yaml"
        (.doc sampleModuleC3) "t").warnings, w.path ≠ "") ∧
     (∀ e ∈ (validateWorkflow emptyStore true "module.yaml"
        (.doc sampleModuleC3) "t").errors, e.path ≠ "") ∧
     (∀ w ∈ (validateWorkflow emptyStore true "module.yaml"
        (.doc sampleModuleC3) "t").warnings, w.path ≠ "") ∧
     (∀ e ∈ (validateModule emptyStore true "module.yaml" .missing "t").errors,
       e.path = "module.yaml") ∧
     (∀ msg : String, ∀ e ∈ (validateModule emptyStore true "module.yaml"
        (.readThrow msg) "t").errors, e.path = "module.yaml") ∧
     (∀ msg : String, ∀ e ∈ (validateModule emptyStore true "module.yaml"
        (.yamlThrow msg) "t").errors, e.path = "module.yaml") ∧
     (∀ e ∈ (validateWorkflow emptyStore true "module.yaml" .missing "t").errors,
       e.path = "module.yaml") ∧
     (∀ msg : String, ∀ e ∈ (validateWorkflow emptyStore true "module.yaml"
        (.readThrow msg) "t").errors, e.path = "module.yaml") ∧
     (∀ msg : String, ∀ e ∈ (validateWorkflow emptyStore true "module.yaml"
        (.yamlThrow msg) "t").errors, e.path = "module.yaml")) :=
  ⟨by decide,
   claim8_nonempty_paths emptyStore true "module.yaml" (.doc sampleModuleC3) "t" (by decide)⟩

lemma validateModuleStructure_missing (d : JsValue) (h1 : d ≠ .null) (h2 : d ≠ .undefined)
    (hm : truthy (getField d "module") = false) :
    validateModuleStructure d = ([missingProperty "module"], none) := by
  rw [validateModuleStructure]
  rw [if_neg (by simp [h1, h2])]
  rw [if_pos (by simp [hm])]

/-- C1 amended: a document whose `module` key is falsy (and that is itself
not nullish) makes the structure check report `missing_property` at
`module` as the FIRST violation and skip the remaining structure checks,
but `validateModule` still validates any `components` / `routes` /
`entities` arrays afterwards: every further violation comes from those
sections (or is the `unexpected_error` of a validation-time throw). -/
theorem claim1_amended (store : SchemaStore) (iw : Bool) (fp ts : String) (d : JsValue)
    (h1 : d ≠ .null) (h2 : d ≠ .undefined)
    (hm : truthy (getField d "module") = false) :
    ∃ rest, (validateModule store iw fp (.doc d) ts).errors =
        missingProperty "module" :: rest ∧
      ∀ e ∈ rest,
        (∃ t, e.path = "components[" ++ t) ∨ (∃ t, e.path = "routes[" ++ t) ∨
        (∃ t, e.path = "entities[" ++ t) ∨ e.type = "unexpected_error" := by
  have hs := validateModuleStructure_missing d h1 h2 hm
  have hcomp : ∀ e ∈ (if truthy (getField d "components") &&
        isArray (getField d "components") then
      validateComponents store (arrElems (getField d "components")) 0
    else ([], [])).1, ∃ t, e.path = "components[" ++ t := by
    intro e he
    split at he
    · exact validateComponents_err_prefix store (arrElems (getField d "components")) 0 e he
    · simp at he
  rcases hr : (if truthy (getField d "routes") && isArray (getField d "routes") then
      validateRoutes (arrElems (getField d "routes")) 0
    else ([], none)) with ⟨re, rexc⟩
  have hre : ∀ e ∈ re, ∃ t, e.path = "routes[" ++ t := by
    intro e he
    split at hr
    · have : e ∈ (validateRoutes (arrElems (getField d "routes")) 0).1 := by
        rw [hr]
        exact he
      exact validateRoutes_prefix (arrElems (getField d "routes")) 0 e this
    · rw [Prod.mk.injEq] at hr
      rw [← hr.1] at he
      simp at he
  cases rexc with
  | some m =>
    refine ⟨(if truthy (getField d "components") && isArray (getField d "components") then
        validateComponents store (arrElems (getField d "components")) 0
      else ([], [])).1 ++ re ++ [unexpectedErrorV fp m], ?_, ?_⟩
    · rw [validateModule, hs, hr]
      simp [createResult]
    · intro e he
      simp only [List.mem_append] at he
      rcases he with (he | he) | he
      · exact Or.inl (hcomp e he)
      · exact Or.inr (Or.inl (hre e he))
      · simp at he
        subst he
        exact Or.inr (Or.inr (Or.inr rfl))
  | none =>
    rcases hn : (if truthy (getField d "entities") && isArray (getField d "entities") then
        validateEntities (arrElems (getField d "entities")) 0
      else ([], none)) with ⟨ne, nexc⟩
    have hne2 : ∀ e ∈ ne, ∃ t, e.path = "entities[" ++ t := by
      intro e he
      split at hn
      · have : e ∈ (validateEntities (arrElems (getField d "entities")) 0).1 := by
          rw [hn]
          exact he
        exact validateEntities_prefix (arrElems (getField d "entities")) 0 e this
      · rw [Prod.mk.injEq] at hn
        rw [← hn.1] at he
        simp at he
    cases nexc with
    | some m =>
      refine ⟨(if truthy (getField d "components") && isArray (getField d "components") then
          validateComponents store (arrElems (getField d "components")) 0
        else ([], [])).1 ++ re ++ ne ++ [unexpectedErrorV fp m], ?_, ?_⟩
      · rw [validateModule, hs, hr, hn]
        simp [createResult]
      · intro e he
        simp only [List.mem_append] at he
        rcases he with ((he | he) | he) | he
        · exact Or.inl (hcomp e he)
        · exact Or.inr (Or.inl (hre e he))
        · exact Or.inr (Or.inr (Or.inl (hne2 e he)))
        · simp at he
          subst he
          exact Or.inr (Or.inr (Or.inr rfl))
    | none =>
      refine ⟨(if truthy (getField d "components") && isArray (getField d "components") then
          validateComponents store (arrElems (getField d "components")) 0
        else ([], [])).1 ++ re ++ ne, ?_, ?_⟩
      · rw [validateModule, hs, hr, hn]
        simp [createResult]
      · intro e he
        simp only [List.mem_append] at he
        rcases he with (he | he) | he
        · exact Or.inl (hcomp e he)
        · exact Or.inr (Or.inl (hre e he))
        · exact Or.inr (Or.inr (Or.inl (hne2 e he)))

/-- C1 amended witness: the `{components: [{}]}` fixture. -/
theorem claim1_amended_witness :
    sampleModuleC1 ≠ JsValue.null ∧ sampleModuleC1 ≠ JsValue.undefined ∧
    truthy (getField sampleModuleC1 "module") = false ∧
    (∃ rest, (validateModule emptyStore true "module.yaml"
        (.doc sampleModuleC1) "t").errors = missingProperty "module" :: rest ∧
      ∀ e ∈ rest,
        (∃ t, e.path = "components[" ++ t) ∨ (∃ t, e.path = "routes[" ++ t) ∨
        (∃ t, e.path = "entities[" ++ t) ∨ e.type = "unexpected_error") :=
  ⟨by decide, by decide, by decide,
   claim1_amended emptyStore true "module.yaml" "t" sampleModuleC1
     (by decide) (by decide) (by decide)⟩

end CxSchema
